import Mathlib

/-!
Shallow embedding of the Newton-optimization notebook
(`NewtonOptimization.ipynb`): the sinusoidal forward model, its analytic
derivative, the MSE loss, the loss gradient, and the `newtonMethod` fitter
loop.  Numerics are modelled over the exact reals; `np.linalg.inv` is
modelled as exact matrix inversion that signals a singular-matrix error
exactly when the determinant vanishes, and fallible computations return
`Except`.  The fitter is dimension-generic, as is the Python function
itself (nothing in `newtonMethod` fixes the parameter count to 3; the
notebook instantiates it at 3).
-/

namespace NewtonOpt

/-- `func(t, params)`: the forward model `A * np.sin(W * t + Z)` with
`params = (A, W, Z)`. -/
noncomputable def func (t : ℝ) (params : Fin 3 → ℝ) : ℝ :=
  params 0 * Real.sin (params 1 * t + params 2)

/-- `funcDeriv(t, params)`: the three analytic derivatives of the model
output with respect to `A`, `W`, `Z`, in that order, as in the notebook. -/
noncomputable def funcDeriv (t : ℝ) (params : Fin 3 → ℝ) : Fin 3 → ℝ :=
  ![Real.sin (params 1 * t + params 2),
    params 0 * t * Real.cos (params 1 * t + params 2),
    params 0 * Real.cos (params 1 * t + params 2)]

/-- `lossFunction(params)`: `np.sum((y_data - func(t_data, params)) ** 2) / len(y_data)`.
The notebook reads `t_data`, `y_data` from globals; they are explicit
arguments here. -/
noncomputable def lossFunction (t_data y_data : List ℝ) (params : Fin 3 → ℝ) : ℝ :=
  (List.zipWith (fun y t => (y - func t params) ^ 2) y_data t_data).sum /
    (y_data.length : ℝ)

/-- `lossFunctionGradient(params)`: `error = y_data - func(t_data, params)`,
`deriv = funcDeriv(t_data, params)` (a 3×n array), `grad = -2 * np.dot(deriv, error)`:
component `i` is `-2 * Σ_k deriv[i][k] * error[k]`. -/
noncomputable def lossFunctionGradient (t_data y_data : List ℝ)
    (params : Fin 3 → ℝ) : Fin 3 → ℝ :=
  fun i =>
    -2 * (List.zipWith (fun y t => funcDeriv t params i * (y - func t params))
      y_data t_data).sum

/-- The error signalled by `np.linalg.inv` on a singular matrix
(`numpy.linalg.LinAlgError: Singular matrix`). -/
inductive LinAlgError
  | singularMatrix
  deriving DecidableEq

/-- `np.dot(grad, grad.T)` for a column vector `grad`: the outer product
`g·gᵀ`, entry `(i, j)` being `g i * g j`. -/
def outer {n : ℕ} (g : Fin n → ℝ) : Matrix (Fin n) (Fin n) ℝ :=
  Matrix.of fun i j => g i * g j

/-- `np.linalg.inv`, modelled exactly: signals `LinAlgError.singularMatrix`
exactly when the determinant is zero, otherwise returns the inverse. -/
noncomputable def linalgInv {n : ℕ} (M : Matrix (Fin n) (Fin n) ℝ) :
    Except LinAlgError (Matrix (Fin n) (Fin n) ℝ) :=
  if M.det = 0 then .error .singularMatrix else .ok M⁻¹

/-- `np.linalg.norm v`: the Euclidean norm, square root of the sum of
squared entries. -/
noncomputable def euclNorm {n : ℕ} (v : Fin n → ℝ) : ℝ :=
  Real.sqrt (∑ i, v i ^ 2)

/-- One iteration body of `newtonMethod`: compute the gradient, form the
outer product, invert it, and step
`params_new = params - inv.dot(grad).flatten()`.  `Matrix.mulVec` is the
matrix–vector product followed by the flatten back to a 1-D vector. -/
noncomputable def newtonIter {n : ℕ} (gradFn : (Fin n → ℝ) → Fin n → ℝ)
    (params : Fin n → ℝ) : Except LinAlgError (Fin n → ℝ) :=
  match linalgInv (outer (gradFn params)) with
  | .error e => .error e
  | .ok minv => .ok (params - minv.mulVec (gradFn params))

/-- The `for _ in range(max_iter)` loop of `newtonMethod`, with the
remaining iteration count as fuel.  On convergence
(`np.linalg.norm(params_new - params) < tol`) the Python code `break`s
BEFORE executing `params = params_new`, so the loop returns the previous
iterate `params`, not `params_new`. -/
noncomputable def newtonLoop {n : ℕ} (gradFn : (Fin n → ℝ) → Fin n → ℝ)
    (tol : ℝ) : ℕ → (Fin n → ℝ) → Except LinAlgError (Fin n → ℝ)
  | 0, params => .ok params
  | k + 1, params =>
    match newtonIter gradFn params with
    | .error e => .error e
    | .ok params_new =>
      if euclNorm (params_new - params) < tol then .ok params
      else newtonLoop gradFn tol k params_new

/-- `newtonMethod(func, lostFunction, lossFunctionGradient, params_initial, max_iter, tol)`.
The first two arguments are accepted but never used by the loop body,
exactly as in the notebook. -/
noncomputable def newtonMethod {n : ℕ} (func : ℝ → (Fin n → ℝ) → ℝ)
    (lostFunction : (Fin n → ℝ) → ℝ)
    (lossFunctionGradient : (Fin n → ℝ) → Fin n → ℝ)
    (params_initial : Fin n → ℝ) (max_iter : ℕ) (tol : ℝ) :
    Except LinAlgError (Fin n → ℝ) :=
  newtonLoop lossFunctionGradient tol max_iter params_initial

/-- `iterates gradFn i p₀` is the parameter vector the loop holds at the
start of iteration `i` when no convergence break has yet occurred:
`i` successive applications of the iteration body, propagating errors. -/
noncomputable def iterates {n : ℕ} (gradFn : (Fin n → ℝ) → Fin n → ℝ) :
    ℕ → (Fin n → ℝ) → Except LinAlgError (Fin n → ℝ)
  | 0, p => .ok p
  | k + 1, p =>
    match newtonIter gradFn p with
    | .error e => .error e
    | .ok q => iterates gradFn k q

/-- Number of gradient evaluations `newtonLoop` performs: each entered
iteration evaluates the gradient exactly once (and attempts at most one
matrix inversion), whether it errors, breaks, or continues. -/
noncomputable def gradCalls {n : ℕ} (gradFn : (Fin n → ℝ) → Fin n → ℝ)
    (tol : ℝ) : ℕ → (Fin n → ℝ) → ℕ
  | 0, _ => 0
  | k + 1, params =>
    match newtonIter gradFn params with
    | .error _ => 1
    | .ok params_new =>
      if euclNorm (params_new - params) < tol then 1
      else 1 + gradCalls gradFn tol k params_new

/-- The MSE formula exactly as the spec words it (§4.3): `(1/n) * Σ (y_i - ŷ_i)^2`
over the sample pairs, written independently of `lossFunction` for the
refinement comparison. -/
noncomputable def specMSE (t_data y_data : List ℝ) (params : Fin 3 → ℝ) : ℝ :=
  (1 / (y_data.length : ℝ)) *
    ((y_data.zip t_data).map fun q => (q.1 - func q.2 params) ^ 2).sum

/-- Row `i` of the spec's 3×n matrix `D` of per-sample derivatives (§4.2),
written from the spec's formulas: row 1 `sin(Wt+Z)`, row 2 `A·t·cos(Wt+Z)`,
row 3 `A·cos(Wt+Z)`. -/
noncomputable def specD (t : ℝ) (params : Fin 3 → ℝ) : Fin 3 → ℝ :=
  ![Real.sin (params 1 * t + params 2),
    params 0 * t * Real.cos (params 1 * t + params 2),
    params 0 * Real.cos (params 1 * t + params 2)]

/-- The spec's loss-gradient formula (§4.4): `-2 * D · e` with `e` the
residual vector `y_i - ŷ_i`, written independently of
`lossFunctionGradient` for the refinement comparison. -/
noncomputable def specGrad (t_data y_data : List ℝ) (params : Fin 3 → ℝ) : Fin 3 → ℝ :=
  fun i =>
    -2 * ((t_data.zip y_data).map fun q => specD q.1 params i * (q.2 - func q.1 params)).sum

/-- A concrete 1-dimensional gradient function (constantly the vector `(1)`)
used to exercise the fitter on inputs where the outer product is invertible:
for a single parameter the outer product `g·gᵀ = (1)` is nonsingular, so the
loop genuinely iterates.  (`newtonMethod` is dimension-generic, and a
1-element parameter vector is a legitimate input to the Python function.) -/
def constGrad : (Fin 1 → ℝ) → Fin 1 → ℝ := fun _ _ => 1

/-- The 1-dimensional zero vector, a concrete initial-parameter input. -/
def zeroVec : Fin 1 → ℝ := fun _ => 0

/-- The 1-dimensional all-ones vector: the step `(g·gᵀ)⁻¹·g` taken by
`constGrad` on every iteration. -/
def oneVec : Fin 1 → ℝ := fun _ => 1

/-- An ignored forward-model argument for concrete 1-dimensional runs. -/
def dummyModel : ℝ → (Fin 1 → ℝ) → ℝ := fun _ _ => 0

/-- An ignored loss-function argument for concrete 1-dimensional runs. -/
def dummyLoss : (Fin 1 → ℝ) → ℝ := fun _ => 0

/-! ### Helper lemmas -/

lemma outer_zero_of_grad_zero {n : ℕ} (g : Fin n → ℝ) (hg : g = 0) : outer g = 0 := by
  subst hg
  ext i j
  simp [outer]

lemma linalgInv_zero_matrix : linalgInv (0 : Matrix (Fin 3) (Fin 3) ℝ) = .error .singularMatrix := by
  unfold linalgInv
  rw [if_pos (Matrix.det_zero ⟨0⟩)]

lemma newtonIter_grad_zero (g : (Fin 3 → ℝ) → Fin 3 → ℝ) (p : Fin 3 → ℝ)
    (hg : g p = 0) : newtonIter g p = .error .singularMatrix := by
  unfold newtonIter
  rw [outer_zero_of_grad_zero _ hg, linalgInv_zero_matrix]

lemma newtonLoop_grad_zero (g : (Fin 3 → ℝ) → Fin 3 → ℝ) (p : Fin 3 → ℝ)
    (k : ℕ) (tol : ℝ) (hg : g p = 0) :
    newtonLoop g tol (k + 1) p = .error .singularMatrix := by
  simp only [newtonLoop, newtonIter_grad_zero g p hg]

/-! ### C2, C5, C9, C10 -/

/-- C2: if the loss gradient at the current parameters is exactly the zero
vector, the 3×3 outer product `grad·gradᵀ` is the zero matrix, its inversion
fails with a singular-matrix error, and `newtonMethod` propagates that error
immediately to the caller (for any iteration budget ≥ 1 — no retry). -/
theorem zero_gradient_singular (f : ℝ → (Fin 3 → ℝ) → ℝ) (l : (Fin 3 → ℝ) → ℝ)
    (g : (Fin 3 → ℝ) → Fin 3 → ℝ) (p0 : Fin 3 → ℝ) (m : ℕ) (tol : ℝ)
    (hg : g p0 = 0) (hm : 1 ≤ m) :
    outer (g p0) = 0 ∧ newtonMethod f l g p0 m tol = .error .singularMatrix := by
  refine ⟨outer_zero_of_grad_zero _ hg, ?_⟩
  unfold newtonMethod
  cases m with
  | zero => exact absurd hm (by norm_num)
  | succ k => exact newtonLoop_grad_zero g p0 k tol hg

/-- Witness for C2 at a concrete input: the identically-zero gradient
function, initial parameters `(0,0,0)`, `max_iter = 100`, `tol = 1e-6`. -/
theorem zero_gradient_singular_witness :
    ((fun _ : Fin 3 → ℝ => (0 : Fin 3 → ℝ)) (fun _ => 0) = 0 ∧ (1 : ℕ) ≤ 100) ∧
    (outer ((fun _ : Fin 3 → ℝ => (0 : Fin 3 → ℝ)) fun _ => 0) = 0 ∧
      newtonMethod (fun _ _ => 0) (fun _ => 0) (fun _ : Fin 3 → ℝ => (0 : Fin 3 → ℝ))
        (fun _ => 0) 100 (1 / 1000000) = .error .singularMatrix) :=
  ⟨⟨rfl, by norm_num⟩,
    zero_gradient_singular (fun _ _ => 0) (fun _ => 0) (fun _ => 0) (fun _ => 0)
      100 (1 / 1000000) rfl (by norm_num)⟩

/-- C5: with `max_iter = 0` the loop body never runs: `newtonMethod` returns
the initial parameters unchanged and performs zero gradient evaluations
(hence also zero matrix inversions). -/
theorem max_iter_zero_returns_initial {n : ℕ} (f : ℝ → (Fin n → ℝ) → ℝ)
    (l : (Fin n → ℝ) → ℝ) (g : (Fin n → ℝ) → Fin n → ℝ) (p : Fin n → ℝ) (tol : ℝ) :
    newtonMethod f l g p 0 tol = .ok p ∧ gradCalls g tol 0 p = 0 :=
  ⟨rfl, rfl⟩

/-- C9: the result of `newtonMethod` is independent of its first two
arguments (the forward model and the loss function): the loop body only
invokes the gradient function, so any two choices of `func`/`lostFunction`
give identical results. -/
theorem result_ignores_model_and_loss {n : ℕ} (f₁ f₂ : ℝ → (Fin n → ℝ) → ℝ)
    (l₁ l₂ : (Fin n → ℝ) → ℝ) (g : (Fin n → ℝ) → Fin n → ℝ)
    (p : Fin n → ℝ) (m : ℕ) (tol : ℝ) :
    newtonMethod f₁ l₁ g p m tol = newtonMethod f₂ l₂ g p m tol :=
  rfl

/-- C10: the loop is bounded by its fuel: for every gradient function,
tolerance and starting point, `newtonLoop` performs at most `max_iter`
gradient evaluations (each entered iteration evaluates the gradient exactly
once and attempts at most one inversion), so the fitter always terminates
within `max_iter` iterations. -/
theorem gradCalls_le_max_iter {n : ℕ} (g : (Fin n → ℝ) → Fin n → ℝ)
    (tol : ℝ) (m : ℕ) (p : Fin n → ℝ) :
    gradCalls g tol m p ≤ m := by
  induction m generalizing p with
  | zero => exact Nat.le_refl 0
  | succ k ih =>
    show (match newtonIter g p with
      | .error _ => 1
      | .ok params_new =>
        if euclNorm (params_new - p) < tol then 1
        else 1 + gradCalls g tol k params_new) ≤ k + 1
    cases newtonIter g p with
    | error e => show 1 ≤ k + 1; omega
    | ok q =>
      show (if euclNorm (q - p) < tol then 1 else 1 + gradCalls g tol k q) ≤ k + 1
      by_cases hc : euclNorm (q - p) < tol
      · rw [if_pos hc]; omega
      · rw [if_neg hc]
        have := ih q
        omega

/-! ### Loop-trace lemmas -/

lemma iterates_zero {n : ℕ} (g : (Fin n → ℝ) → Fin n → ℝ) (p : Fin n → ℝ) :
    iterates g 0 p = .ok p := rfl

lemma iterates_succ_of_ok {n : ℕ} (g : (Fin n → ℝ) → Fin n → ℝ) (k : ℕ)
    (p p₁ : Fin n → ℝ) (h : newtonIter g p = .ok p₁) :
    iterates g (k + 1) p = iterates g k p₁ := by
  simp only [iterates, h]

lemma iterates_succ_ok_split {n : ℕ} (g : (Fin n → ℝ) → Fin n → ℝ) (k : ℕ)
    (p r : Fin n → ℝ) (h : iterates g (k + 1) p = .ok r) :
    ∃ p₁, newtonIter g p = .ok p₁ ∧ iterates g k p₁ = .ok r := by
  cases hstep : newtonIter g p with
  | error e => rw [iterates, hstep] at h; exact absurd h (by simp)
  | ok p₁ => exact ⟨p₁, rfl, by rwa [iterates_succ_of_ok g k p p₁ hstep] at h⟩

lemma newtonLoop_succ_continue {n : ℕ} (g : (Fin n → ℝ) → Fin n → ℝ) (tol : ℝ)
    (k : ℕ) (p p₁ : Fin n → ℝ) (h : newtonIter g p = .ok p₁)
    (hno : ¬ euclNorm (p₁ - p) < tol) :
    newtonLoop g tol (k + 1) p = newtonLoop g tol k p₁ := by
  simp only [newtonLoop, h, if_neg hno]

lemma newtonLoop_succ_break {n : ℕ} (g : (Fin n → ℝ) → Fin n → ℝ) (tol : ℝ)
    (k : ℕ) (p p₁ : Fin n → ℝ) (h : newtonIter g p = .ok p₁)
    (hc : euclNorm (p₁ - p) < tol) :
    newtonLoop g tol (k + 1) p = .ok p := by
  simp only [newtonLoop, h, if_pos hc]

/-! ### C3 -/

/-- C3: if all `max_iter` iterations complete (every step succeeds) and the
convergence norm never falls below `tol`, `newtonMethod` silently returns
the parameter vector computed on the last iteration — the `max_iter`-th
iterate — and signals no error. -/
theorem nonconvergence_returns_last {n : ℕ} (f : ℝ → (Fin n → ℝ) → ℝ)
    (l : (Fin n → ℝ) → ℝ) (g : (Fin n → ℝ) → Fin n → ℝ)
    (p0 : Fin n → ℝ) (m : ℕ) (tol : ℝ) (q : Fin n → ℝ)
    (hok : iterates g m p0 = .ok q)
    (hno : ∀ j, j < m → ∀ pj qj, iterates g j p0 = .ok pj →
      iterates g (j + 1) p0 = .ok qj → tol ≤ euclNorm (qj - pj)) :
    newtonMethod f l g p0 m tol = .ok q := by
  unfold newtonMethod
  induction m generalizing p0 with
  | zero =>
    rw [iterates_zero] at hok
    rw [newtonLoop]
    exact hok
  | succ k ih =>
    obtain ⟨p₁, hstep, hrest⟩ := iterates_succ_ok_split g k p0 q hok
    have h1 : iterates g 1 p0 = .ok p₁ := by
      rw [iterates_succ_of_ok g 0 p0 p₁ hstep, iterates_zero]
    have hge : tol ≤ euclNorm (p₁ - p0) :=
      hno 0 (Nat.succ_pos k) p0 p₁ (iterates_zero g p0) h1
    rw [newtonLoop_succ_continue g tol k p0 p₁ hstep (not_lt.mpr hge)]
    refine ih p₁ hrest ?_
    intro j hj pj qj hpj hqj
    exact hno (j + 1) (Nat.succ_lt_succ hj) pj qj
      (by rwa [iterates_succ_of_ok g j p0 p₁ hstep])
      (by rwa [iterates_succ_of_ok g (j + 1) p0 p₁ hstep])

/-! ### Concrete evaluation lemmas for the 1-dimensional gradient `constGrad` -/

lemma outer_constGrad (p : Fin 1 → ℝ) : outer (constGrad p) = 1 := by
  ext i j
  rw [Subsingleton.elim i j]
  simp [outer, constGrad, Matrix.one_apply]

lemma newtonIter_constGrad (p : Fin 1 → ℝ) :
    newtonIter constGrad p = .ok (p - oneVec) := by
  unfold newtonIter linalgInv
  rw [outer_constGrad]
  simp only [Matrix.det_one, one_ne_zero, if_false, inv_one, Matrix.one_mulVec]
  rfl

lemma step_sub_self (p : Fin 1 → ℝ) : ((p - oneVec) - p) = fun _ : Fin 1 => (-1 : ℝ) := by
  funext i
  simp [oneVec]

lemma norm_step_one (p : Fin 1 → ℝ) : euclNorm ((p - oneVec) - p) = 1 := by
  rw [step_sub_self]
  unfold euclNorm
  rw [Fin.sum_univ_one]
  norm_num

lemma iterates_succ_constGrad (k : ℕ) (p : Fin 1 → ℝ) :
    iterates constGrad (k + 1) p = iterates constGrad k (p - oneVec) :=
  iterates_succ_of_ok constGrad k p _ (newtonIter_constGrad p)

/-! ### C1 -/

/-- C1 counterexample: a concrete run that converges on its first iteration.
With the constant 1-dimensional gradient `constGrad`, initial parameters
`(0)`, `tol = 2`, `max_iter = 5`: the first iteration computes
`params_new = (0) - (1) = (-1)` with update norm `1 < 2`, so the loop breaks
— and returns `.ok (0)`, the PREVIOUS iterate, not the freshly computed
`params_new = (-1)`, refuting the claim that `newtonMethod` returns
`new_params` on convergence. -/
theorem convergence_claim_false :
    newtonMethod dummyModel dummyLoss constGrad zeroVec 5 2 = .ok zeroVec ∧
    newtonIter constGrad zeroVec = .ok (zeroVec - oneVec) ∧
    euclNorm ((zeroVec - oneVec) - zeroVec) < 2 ∧
    zeroVec ≠ zeroVec - oneVec := by
  have hc : euclNorm ((zeroVec - oneVec) - zeroVec) < 2 := by
    rw [norm_step_one]; norm_num
  refine ⟨?_, newtonIter_constGrad _, hc, ?_⟩
  · show newtonLoop constGrad 2 5 zeroVec = .ok zeroVec
    rw [show (5 : ℕ) = 4 + 1 from rfl]
    exact newtonLoop_succ_break constGrad 2 4 _ _ (newtonIter_constGrad _) hc
  · intro hcontra
    have h0 := congrFun hcontra 0
    simp only [Pi.sub_apply, zeroVec, oneVec] at h0
    norm_num at h0

/-- C1 amended: when the fitter converges — at iteration `i` (counted from
0) the update norm first falls below `tol`, every earlier iteration having
succeeded without converging — `newtonMethod` stops there but returns the
parameter vector `current_params` held at the START of that iteration (the
previous iterate), not the freshly computed `new_params`. -/
theorem convergence_returns_current {n : ℕ} (f : ℝ → (Fin n → ℝ) → ℝ)
    (l : (Fin n → ℝ) → ℝ) (g : (Fin n → ℝ) → Fin n → ℝ)
    (p0 : Fin n → ℝ) (m i : ℕ) (tol : ℝ) (p q : Fin n → ℝ)
    (hp : iterates g i p0 = .ok p) (hq : iterates g (i + 1) p0 = .ok q)
    (hconv : euclNorm (q - p) < tol)
    (hfirst : ∀ j, j < i → ∀ pj qj, iterates g j p0 = .ok pj →
      iterates g (j + 1) p0 = .ok qj → tol ≤ euclNorm (qj - pj))
    (hm : i < m) :
    newtonMethod f l g p0 m tol = .ok p := by
  unfold newtonMethod
  induction i generalizing p0 m with
  | zero =>
    rw [iterates_zero] at hp
    obtain rfl : p0 = p := by injection hp
    obtain ⟨p₁, hstep, hp₁⟩ := iterates_succ_ok_split g 0 p0 q hq
    rw [iterates_zero] at hp₁
    obtain rfl : p₁ = q := by injection hp₁
    cases m with
    | zero => exact absurd hm (by omega)
    | succ k => exact newtonLoop_succ_break g tol k p0 p₁ hstep hconv
  | succ k ih =>
    obtain ⟨p₁, hstep, hp'⟩ := iterates_succ_ok_split g k p0 p hp
    have h1 : iterates g 1 p0 = .ok p₁ := by
      rw [iterates_succ_of_ok g 0 p0 p₁ hstep, iterates_zero]
    have hge : tol ≤ euclNorm (p₁ - p0) :=
      hfirst 0 (Nat.succ_pos k) p0 p₁ (iterates_zero g p0) h1
    cases m with
    | zero => exact absurd hm (by omega)
    | succ m' =>
      rw [newtonLoop_succ_continue g tol m' p0 p₁ hstep (not_lt.mpr hge)]
      refine ih p₁ m' hp' ?_ ?_ (by omega)
      · rwa [iterates_succ_of_ok g (k + 1) p0 p₁ hstep] at hq
      · intro j hj pj qj hpj hqj
        exact hfirst (j + 1) (Nat.succ_lt_succ hj) pj qj
          (by rwa [iterates_succ_of_ok g j p0 p₁ hstep])
          (by rwa [iterates_succ_of_ok g (j + 1) p0 p₁ hstep])

/-- Witness for the amended C1 at a concrete input: the `constGrad` run of
`convergence_claim_false` converges at iteration `i = 0` and the fitter
returns the iterate held at the start of that iteration, `(0)`. -/
theorem convergence_returns_current_witness :
    (iterates constGrad 0 zeroVec = .ok zeroVec ∧
     iterates constGrad 1 zeroVec = .ok (zeroVec - oneVec) ∧
     euclNorm ((zeroVec - oneVec) - zeroVec) < 2 ∧
     (0 : ℕ) < 5) ∧
    newtonMethod dummyModel dummyLoss constGrad zeroVec 5 2 = .ok zeroVec := by
  have h0 : iterates constGrad 0 zeroVec = .ok zeroVec := iterates_zero _ _
  have h1 : iterates constGrad 1 zeroVec = .ok (zeroVec - oneVec) := by
    rw [iterates_succ_constGrad, iterates_zero]
  have hc : euclNorm ((zeroVec - oneVec) - zeroVec) < 2 := by
    rw [norm_step_one]; norm_num
  exact ⟨⟨h0, h1, hc, by norm_num⟩,
    convergence_returns_current dummyModel dummyLoss constGrad
      zeroVec 5 0 2 zeroVec (zeroVec - oneVec)
      h0 h1 hc (fun j hj => absurd hj (Nat.not_lt_zero j)) (by norm_num)⟩

/-- Witness for C3 at a concrete input: the `constGrad` run with `tol = 1/2`
never converges (every update norm is `1 ≥ 1/2`), so after `max_iter = 2`
iterations the fitter returns the last computed iterate `(0) - (1) - (1)`. -/
theorem nonconvergence_returns_last_witness :
    (iterates constGrad 2 zeroVec = .ok ((zeroVec - oneVec) - oneVec) ∧
     (∀ j, j < 2 → ∀ pj qj, iterates constGrad j zeroVec = .ok pj →
       iterates constGrad (j + 1) zeroVec = .ok qj →
       (1 / 2 : ℝ) ≤ euclNorm (qj - pj))) ∧
    newtonMethod dummyModel dummyLoss constGrad zeroVec 2 (1 / 2) =
      .ok ((zeroVec - oneVec) - oneVec) := by
  have h2 : iterates constGrad 2 zeroVec = .ok ((zeroVec - oneVec) - oneVec) := by
    rw [show (2 : ℕ) = 1 + 1 from rfl, iterates_succ_constGrad,
      iterates_succ_constGrad, iterates_zero]
  have hno : ∀ j, j < 2 → ∀ pj qj, iterates constGrad j zeroVec = .ok pj →
      iterates constGrad (j + 1) zeroVec = .ok qj →
      (1 / 2 : ℝ) ≤ euclNorm (qj - pj) := by
    intro j hj pj qj hpj hqj
    interval_cases j
    · rw [iterates_zero] at hpj
      obtain rfl : zeroVec = pj := by injection hpj
      rw [iterates_succ_constGrad, iterates_zero] at hqj
      obtain rfl : zeroVec - oneVec = qj := by injection hqj
      rw [norm_step_one]; norm_num
    · rw [iterates_succ_constGrad, iterates_zero] at hpj
      obtain rfl : zeroVec - oneVec = pj := by injection hpj
      rw [show (1 : ℕ) + 1 = 0 + 1 + 1 from rfl, iterates_succ_constGrad,
        iterates_succ_constGrad, iterates_zero] at hqj
      obtain rfl : (zeroVec - oneVec) - oneVec = qj := by injection hqj
      rw [norm_step_one]; norm_num
  exact ⟨⟨h2, hno⟩,
    nonconvergence_returns_last dummyModel dummyLoss constGrad
      zeroVec 2 (1 / 2) ((zeroVec - oneVec) - oneVec) h2 hno⟩

/-! ### C4 -/

/-- C4: on every iteration whose matrix inversion succeeds (the outer
product has nonzero determinant), the iteration body computes
`new_params = current_params - (grad·gradᵀ)⁻¹ · grad` (the inverted outer
product applied to the gradient, flattened back to a vector), and the loop
continues (or breaks) with exactly that vector. -/
theorem newton_step_formula {n : ℕ} (g : (Fin n → ℝ) → Fin n → ℝ) (p : Fin n → ℝ)
    (tol : ℝ) (k : ℕ) (h : (outer (g p)).det ≠ 0) :
    newtonIter g p = .ok (p - (outer (g p))⁻¹.mulVec (g p)) ∧
    newtonLoop g tol (k + 1) p =
      (if euclNorm ((p - (outer (g p))⁻¹.mulVec (g p)) - p) < tol then .ok p
       else newtonLoop g tol k (p - (outer (g p))⁻¹.mulVec (g p))) := by
  have hstep : newtonIter g p = .ok (p - (outer (g p))⁻¹.mulVec (g p)) := by
    unfold newtonIter linalgInv
    rw [if_neg h]
  refine ⟨hstep, ?_⟩
  simp only [newtonLoop, hstep]

/-- Witness for C4 at a concrete input: the 1-dimensional constant gradient
`constGrad`, whose outer product `(1)` is invertible, at start `(0)` with
`tol = 2`. -/
theorem newton_step_formula_witness :
    (outer (constGrad zeroVec)).det ≠ 0 ∧
    (newtonIter constGrad zeroVec =
        .ok (zeroVec - (outer (constGrad zeroVec))⁻¹.mulVec (constGrad zeroVec)) ∧
      newtonLoop constGrad 2 (0 + 1) zeroVec =
        (if euclNorm
              ((zeroVec - (outer (constGrad zeroVec))⁻¹.mulVec (constGrad zeroVec)) -
                zeroVec) < 2
         then .ok zeroVec
         else newtonLoop constGrad 2 0
           (zeroVec - (outer (constGrad zeroVec))⁻¹.mulVec (constGrad zeroVec)))) := by
  have h : (outer (constGrad zeroVec)).det ≠ 0 := by
    rw [outer_constGrad, Matrix.det_one]
    norm_num
  exact ⟨h, newton_step_formula constGrad zeroVec 2 0 h⟩

/-! ### C6 and C7: the loss and its gradient against the spec formulas -/

lemma zipWith_eq_map_zip {α β γ : Type*} (f : α → β → γ) :
    ∀ (l₁ : List α) (l₂ : List β),
      List.zipWith f l₁ l₂ = (l₁.zip l₂).map fun q => f q.1 q.2
  | [], _ => by simp
  | _ :: _, [] => by simp
  | a :: l₁, b :: l₂ => by simp [zipWith_eq_map_zip f l₁ l₂]

lemma zipWith_eq_map_zip_swap {α β γ : Type*} (f : α → β → γ) :
    ∀ (l₁ : List α) (l₂ : List β),
      List.zipWith f l₁ l₂ = (l₂.zip l₁).map fun q => f q.2 q.1
  | [], _ => by simp
  | _ :: _, [] => by simp
  | a :: l₁, b :: l₂ => by simp [zipWith_eq_map_zip_swap f l₁ l₂]

lemma sum_eq_zero_iff_of_nonneg (l : List ℝ) (h : ∀ x ∈ l, 0 ≤ x) :
    l.sum = 0 ↔ ∀ x ∈ l, x = 0 := by
  induction l with
  | nil => simp
  | cons a l ih =>
    have ha : 0 ≤ a := h a (List.mem_cons_self a l)
    have hl : ∀ x ∈ l, 0 ≤ x := fun x hx => h x (List.mem_cons_of_mem a hx)
    have hs : 0 ≤ l.sum := List.sum_nonneg hl
    rw [List.sum_cons]
    constructor
    · intro h0
      have ha0 : a = 0 := by linarith
      have hs0 : l.sum = 0 := by linarith
      intro x hx
      rcases List.mem_cons.mp hx with rfl | hx
      · exact ha0
      · exact (ih hl).mp hs0 x hx
    · intro hall
      rw [hall a (List.mem_cons_self a l), zero_add]
      exact (ih hl).mpr fun x hx => hall x (List.mem_cons_of_mem a hx)

/-- C6: for parallel sample sequences of equal length with at least one
point, `lossFunction` computes exactly the spec's MSE `(1/n)·Σ(y_i - ŷ_i)²`,
is a single real number `≥ 0`, and is `0` exactly when every prediction
matches its observed value (a perfect fit). -/
theorem lossFunction_is_mse (t_data y_data : List ℝ) (p : Fin 3 → ℝ)
    (hlen : t_data.length = y_data.length) (hne : y_data ≠ []) :
    lossFunction t_data y_data p = specMSE t_data y_data p ∧
    0 ≤ lossFunction t_data y_data p ∧
    (lossFunction t_data y_data p = 0 ↔
      ∀ q ∈ y_data.zip t_data, q.1 = func q.2 p) := by
  have hmap : lossFunction t_data y_data p =
      ((y_data.zip t_data).map fun q => (q.1 - func q.2 p) ^ 2).sum /
        (y_data.length : ℝ) := by
    unfold lossFunction
    rw [zipWith_eq_map_zip]
  have hnn : ∀ x ∈ (y_data.zip t_data).map fun q => (q.1 - func q.2 p) ^ 2,
      (0 : ℝ) ≤ x := by
    intro x hx
    obtain ⟨q, hq, rfl⟩ := List.mem_map.mp hx
    positivity
  have hlen0 : (0 : ℝ) < (y_data.length : ℝ) := by
    exact_mod_cast List.length_pos.mpr hne
  refine ⟨?_, ?_, ?_⟩
  · rw [hmap]
    unfold specMSE
    ring
  · rw [hmap]
    exact div_nonneg (List.sum_nonneg hnn) (le_of_lt hlen0)
  · rw [hmap, div_eq_zero_iff]
    constructor
    · intro hor
      have hsum : ((y_data.zip t_data).map fun q => (q.1 - func q.2 p) ^ 2).sum = 0 := by
        rcases hor with h | h
        · exact h
        · exact absurd h (ne_of_gt hlen0)
      intro q hq
      have hterm := (sum_eq_zero_iff_of_nonneg _ hnn).mp hsum
        ((q.1 - func q.2 p) ^ 2) (List.mem_map.mpr ⟨q, hq, rfl⟩)
      have hsub : q.1 - func q.2 p = 0 := by
        exact (pow_eq_zero_iff two_ne_zero).mp hterm
      linarith
    · intro hall
      left
      refine (sum_eq_zero_iff_of_nonneg _ hnn).mpr ?_
      intro x hx
      obtain ⟨q, hq, rfl⟩ := List.mem_map.mp hx
      rw [hall q hq, sub_self]
      norm_num

/-- Witness for C6 at a concrete input: one sample `t = 0`, `y = 5`,
parameters `(1, 1, 1)`. -/
theorem lossFunction_is_mse_witness :
    (([0] : List ℝ).length = ([5] : List ℝ).length ∧ ([5] : List ℝ) ≠ []) ∧
    (lossFunction [0] [5] ![1, 1, 1] = specMSE [0] [5] ![1, 1, 1] ∧
      0 ≤ lossFunction [0] [5] ![1, 1, 1] ∧
      (lossFunction [0] [5] ![1, 1, 1] = 0 ↔
        ∀ q ∈ ([5] : List ℝ).zip [0], q.1 = func q.2 ![1, 1, 1])) := by
  have hlen : ([0] : List ℝ).length = ([5] : List ℝ).length := rfl
  have hne : ([5] : List ℝ) ≠ [] := by simp
  exact ⟨⟨hlen, hne⟩, lossFunction_is_mse [0] [5] ![1, 1, 1] hlen hne⟩

/-- C7: `lossFunctionGradient` returns exactly the spec's formula
`-2 * D · e`: componentwise, `-2` times the dot product of row `i` of the
per-sample derivative matrix `D` (rows `sin(Wt+Z)`, `A·t·cos(Wt+Z)`,
`A·cos(Wt+Z)`) with the residual vector `e = y - ŷ`, for all sample data
and parameters. -/
theorem lossFunctionGradient_is_spec (t_data y_data : List ℝ) (p : Fin 3 → ℝ) :
    lossFunctionGradient t_data y_data p = specGrad t_data y_data p := by
  funext i
  unfold lossFunctionGradient specGrad
  rw [zipWith_eq_map_zip_swap]
  rfl

/-! ### C8 -/

lemma perfect_fit_grad_zero (t_data : List ℝ) (p : Fin 3 → ℝ) :
    lossFunctionGradient t_data (t_data.map fun t => func t p) p = 0 := by
  funext i
  have h : ∀ l : List ℝ,
      (List.zipWith (fun y t => funcDeriv t p i * (y - func t p))
        (l.map fun t => func t p) l).sum = 0 := by
    intro l
    induction l with
    | nil => simp
    | cons a l ih => simp [ih]
  show -2 * (List.zipWith (fun y t => funcDeriv t p i * (y - func t p))
      (t_data.map fun t => func t p) t_data).sum = _
  rw [h t_data]
  simp

/-- C8 counterexample: noiseless data generated from the model at
parameters `(3, 2, 1)` with `t`-values `[0, 1]`, and the initial guess
exactly equal to those generating parameters: the residuals are exactly
zero, so the gradient is exactly the zero vector, the outer product is the
zero matrix, and `newtonMethod` fails with a singular-matrix error instead
of returning normally with convergence on iteration 0 or 1. -/
theorem exact_initial_claim_false :
    newtonMethod func
      (lossFunction [0, 1] (([0, 1] : List ℝ).map fun t => func t ![3, 2, 1]))
      (lossFunctionGradient [0, 1] (([0, 1] : List ℝ).map fun t => func t ![3, 2, 1]))
      ![3, 2, 1] 100 (1 / 1000000) = .error .singularMatrix := by
  show newtonLoop _ _ 100 _ = _
  rw [show (100 : ℕ) = 99 + 1 from rfl]
  exact newtonLoop_grad_zero _ _ 99 _ (perfect_fit_grad_zero [0, 1] ![3, 2, 1])

/-- C8 amended: for every noiseless sample set generated from
`y = A₀·sin(W₀·t + Z₀)`, if the initial parameter vector exactly equals the
data-generating parameters, the first gradient is exactly the zero vector,
so `newtonMethod` (with any iteration budget ≥ 1) fails deterministically
with a singular-matrix error — the degenerate zero-gradient scenario —
rather than reporting convergence and returning normally. -/
theorem exact_initial_singular (t_data : List ℝ) (p0 : Fin 3 → ℝ) (m : ℕ)
    (tol : ℝ) (hm : 1 ≤ m) :
    newtonMethod func (lossFunction t_data (t_data.map fun t => func t p0))
      (lossFunctionGradient t_data (t_data.map fun t => func t p0)) p0 m tol =
      .error .singularMatrix := by
  unfold newtonMethod
  cases m with
  | zero => exact absurd hm (by norm_num)
  | succ k => exact newtonLoop_grad_zero _ p0 k tol (perfect_fit_grad_zero t_data p0)

/-- Witness for the amended C8 at a concrete input: `t`-values `[0, 1]`,
generating parameters `(3, 2, 1)`, `max_iter = 100`, `tol = 1e-6`. -/
theorem exact_initial_singular_witness :
    (1 : ℕ) ≤ 100 ∧
    newtonMethod func
      (lossFunction [0, 1] (([0, 1] : List ℝ).map fun t => func t ![3, 2, 1]))
      (lossFunctionGradient [0, 1] (([0, 1] : List ℝ).map fun t => func t ![3, 2, 1]))
      ![3, 2, 1] 100 (1 / 1000000) = .error .singularMatrix :=
  ⟨by norm_num,
    exact_initial_singular [0, 1] ![3, 2, 1] 100 (1 / 1000000) (by norm_num)⟩

end NewtonOpt
